import Mathlib

/-!
Verification development for the UniPlugin Obsidian extension.

The plugin has two features, both embedded here over plain lists of
characters:

* `updateLineCount`: splits the document text on newlines and on runs of
  two consecutive dollar signs and shows the segment count in the status
  bar (with a trailing-empty-segment adjustment); an absent document hides
  the status bar item.

* `mathSimplifier`: reads the whitespace-delimited token immediately
  before the cursor, tests it against a fixed ordered list of eleven
  regular-expression patterns (global, case-insensitive), and for every
  pattern that matches performs a fixed-width replacement ending at the
  cursor column, followed by an explicit cursor repositioning for most
  rules.

Modelling conventions:

* Strings are `List Char`; documents are lists of lines (`List (List Char)`).
* Columns and lines are `Nat`; the truncated subtraction of `Nat` models
  the clamping that the host editor applies to negative positions.
* The patterns carry the JavaScript global-flag state: `test` starts the
  search at the pattern `lastIndex`, stores the match end on success and
  resets the index to zero on failure.  `mathSimplifierS` threads that
  per-pattern state; `mathSimplifier` is a single invocation started from
  the reset state (all indices zero, as right after plugin load).
* `String.prototype.repeat` with a negative count throws; fallible steps
  return `Option`, with `none` standing for the thrown exception.
* The implicit remapping of the editor selection through a text change is
  not modelled: a rule that calls `setCursor` determines the final cursor
  exactly, and no statement below depends on the cursor produced by the
  single rule that does not reposition it.
-/

/-- Cursor position: a line index and a character column, as in the host
editor API. -/
structure CurPos where
  line : Nat
  ch : Nat
deriving DecidableEq, Repr

/-- Editor state: the document as a list of lines plus the cursor. -/
structure EditorState where
  lines : List (List Char)
  cursor : CurPos
deriving DecidableEq, Repr

/-- Status bar item state: hidden, or showing a text. -/
inductive StatusDisplay where
  | hidden : StatusDisplay
  | shown : List Char → StatusDisplay
deriving DecidableEq, Repr

/-- Split a character list on the regular pattern of the line counter,
newline or two consecutive dollar signs, mirroring
`fileContent.split(/\n|\$\{2\}/)`. -/
def splitDelims : List Char → List (List Char)
  | [] => [[]]
  | '\n' :: rest => [] :: splitDelims rest
  | '$' :: '$' :: rest => [] :: splitDelims rest
  | c :: rest =>
    match splitDelims rest with
    | s :: ss => (c :: s) :: ss
    | [] => [[c]]

/-- Per the spec, the displayed count is the number of segments after the
split, minus one exactly when the final segment is empty. -/
def specLineCount (t : List Char) : Nat :=
  let segs := splitDelims t
  if segs.getLastD [] = [] then segs.length - 1 else segs.length

/-- The `updateLineCount` method.  The guard `if (!fileContent)` is the
JavaScript falsiness test: it hides the status bar item both for an
absent document (`undefined`) and for the empty string. -/
def updateLineCount (fileContent : Option (List Char)) : StatusDisplay :=
  match fileContent with
  | none => StatusDisplay.hidden
  | some t =>
    if t = [] then StatusDisplay.hidden
    else
      let lines := splitDelims t
      let amount := lines.length
      let amount2 := if lines.getD (amount - 1) [] = [] then amount - 1 else amount
      StatusDisplay.shown ("Lines: ".data ++ (toString amount2).data)

/-- One unit of a trigger pattern: a literal character (matched
case-insensitively) or a digit class. -/
inductive PatChar where
  | lit : Char → PatChar
  | digit : PatChar
deriving DecidableEq, Repr

/-- Case-insensitive match of one pattern unit against one character,
mirroring the `i` flag of the source regexes. -/
def patCharOk : PatChar → Char → Bool
  | PatChar.lit a, c => a.toLower == c.toLower
  | PatChar.digit, c => ('0' ≤ c && c ≤ '9')

/-- Match the whole pattern at the head of the character list. -/
def matchHere : List PatChar → List Char → Bool
  | [], _ => true
  | _ :: _, [] => false
  | p :: ps, c :: cs => patCharOk p c && matchHere ps cs

/-- Scan for the first match of the pattern, returning the index just
after the match end; `idx` is the index of the head of `l` in the
original string. -/
def searchAux (pat : List PatChar) : List Char → Nat → Option Nat
  | l, idx =>
    if matchHere pat l then some (idx + pat.length)
    else
      match l with
      | [] => none
      | _ :: rest => searchAux pat rest (idx + 1)

/-- First match of the pattern in `w` at a position at or after `start`,
returning the index just after the match end. -/
def searchFrom (pat : List PatChar) (w : List Char) (start : Nat) : Option Nat :=
  searchAux pat (w.drop start) start

/-- The `test` method of a global regex: search from `lastIndex`; on
success store the match end in `lastIndex`, on failure reset it to zero.
Returns the outcome together with the new `lastIndex`. -/
def jsTest (pat : List PatChar) (lastIndex : Nat) (w : List Char) : Bool × Nat :=
  match searchFrom pat w lastIndex with
  | some e => (true, e)
  | none => (false, 0)

/-- Literal pattern built from a string. -/
def lits (s : String) : List PatChar := s.data.map PatChar.lit

/-- The eleven trigger patterns of the extended catalog, in source
order. -/
def patterns : List (List PatChar) := [
  [PatChar.lit 'a', PatChar.lit 'r', PatChar.lit 'r', PatChar.digit],
  [PatChar.lit 'm', PatChar.digit, PatChar.lit ',', PatChar.digit],
  lits "\\pars",
  lits "\\code",
  lits "\\prg:js",
  lits "\\prg:py",
  lits "\\prg:cpp",
  lits "\\prg:java",
  lits "\\prg:psc",
  lits "\\sys",
  lits "\\defn"]

/-- Fresh-state match: pattern `i` matches somewhere in `w` when the
search starts at index zero. -/
def patMatches (i : Nat) (w : List Char) : Bool :=
  (searchFrom (patterns.getD i []) w 0).isSome

/-- Whitespace for the `\s` class of the token split (ASCII part; the
documents at issue contain no exotic whitespace). -/
def jsWhitespaceChar (c : Char) : Bool :=
  c == ' ' || c == '\t' || c == '\n' || c == '\r' || c == '\x0b' || c == '\x0c'

/-- The last element of `range.split(/\s+/)`: the maximal run of
non-whitespace characters at the end of the range (empty when the range
is empty or ends in whitespace, which is the falsy no-token case). -/
def lastWord (l : List Char) : List Char :=
  (l.reverse.takeWhile (fun c => !jsWhitespaceChar c)).reverse

/-- The token before the cursor: the last whitespace-delimited word of
the text from the start of the cursor line up to the cursor column. -/
def wordBeforeCursor (st : EditorState) : List Char :=
  lastWord ((st.lines.getD st.cursor.line []).take st.cursor.ch)

/-- Split a character list on newline characters into lines. -/
def splitNL : List Char → List (List Char)
  | [] => [[]]
  | c :: rest =>
    if c = '\n' then [] :: splitNL rest
    else
      match splitNL rest with
      | s :: ss => (c :: s) :: ss
      | [] => [[c]]

/-- The `replaceRange` editor call restricted to the shape the plugin
uses: both endpoints on line `l`, columns `a ≤ b`; the inserted text may
contain newlines, in which case the line is split. -/
def replaceRange (doc : List (List Char)) (text : List Char) (l a b : Nat) :
    List (List Char) :=
  let L := doc.getD l []
  doc.take l ++ splitNL (L.take a ++ text ++ L.drop b) ++ doc.drop (l + 1)

/-- Value of a decimal digit character, `none` otherwise. -/
def digitVal (c : Char) : Option Nat :=
  if '0' ≤ c ∧ c ≤ '9' then some (c.toNat - '0'.toNat) else none

/-- `Number` applied to a one-character slice of the token: `none` stands
for `NaN` (undefined index or non-digit character). -/
def jsNum (oc : Option Char) : Option Nat := oc.bind digitVal

/-- Character `k` positions before the end of the word, mirroring
`w[w.length - 1 - k]` (`none` when the index is out of range). -/
def charFromEnd (w : List Char) (k : Nat) : Option Char :=
  if k < w.length then w[w.length - 1 - k]? else none

/-- Rendering of a possibly-NaN number inside a template literal. -/
def numToStr : Option Nat → List Char
  | some n => (toString n).data
  | none => "NaN".data

/-- `String.prototype.repeat`: throws (`none`) on a negative count. -/
def jsRepeat (c : Char) (n : Int) : Option (List Char) :=
  if n < 0 then none else some (List.replicate n.toNat c)

/-- Number of characters each rule consumes before the cursor: the `ch`
offset of `startPos` in the corresponding `case` of the source switch. -/
def consumedLen : Nat → Nat
  | 0 => 4
  | 1 => 4
  | 2 => 5
  | 3 => 5
  | 4 => 7
  | 5 => 7
  | 6 => 8
  | 7 => 9
  | 8 => 8
  | 9 => 4
  | 10 => 5
  | _ => 0

/-- The body of one `case` of the switch in `mathSimplifier`: given the
cursor read before the loop (`c`), the token (`w`), the rule index, the
current document and the current cursor, produce the new document and
cursor.  `none` models a thrown exception (only the negative-count
`repeat` could throw).  Indices outside the switch leave the state
unchanged. -/
def applyRule (c : CurPos) (w : List Char) (i : Nat) (doc : List (List Char))
    (cur : CurPos) : Option (List (List Char) × CurPos) :=
  match i with
  | 0 =>
    let core : Option (List Char) :=
      match jsNum (charFromEnd w 0) with
      | some n =>
        if 0 < n then (jsRepeat 'c' ((n : Int) - 1)).map (fun r => r ++ "|c".data)
        else some []
      | none => some []
    core.map (fun mid =>
      (replaceRange doc ("\\begin\x7barray\x7d\x7b".data ++ mid ++ "\x7d\\end\x7barray\x7d".data)
        c.line (c.ch - 4) c.ch,
       ⟨c.line, c.ch - 16⟩))
  | 1 =>
    some (replaceRange doc
      ("M_\x7b".data ++ numToStr (jsNum (charFromEnd w 2)) ++ ",".data ++
        numToStr (jsNum (charFromEnd w 0)) ++ "\x7d = \\pmatrix\x7b\x7d".data)
      c.line (c.ch - 4) c.ch, cur)
  | 2 =>
    some (replaceRange doc "\\left(\\right)".data c.line (c.ch - 5) c.ch,
      ⟨c.line, c.ch - 12⟩)
  | 3 =>
    some (replaceRange doc "```\n\n```".data c.line (c.ch - 5) c.ch,
      ⟨c.line + 1, 0⟩)
  | 4 =>
    some (replaceRange doc "```js\n\n```".data c.line (c.ch - 7) c.ch,
      ⟨c.line + 1, 0⟩)
  | 5 =>
    some (replaceRange doc "```python\n\n```".data c.line (c.ch - 7) c.ch,
      ⟨c.line + 1, 0⟩)
  | 6 =>
    some (replaceRange doc "```cpp\n\n```".data c.line (c.ch - 8) c.ch,
      ⟨c.line + 1, 0⟩)
  | 7 =>
    some (replaceRange doc "```java\n\n```".data c.line (c.ch - 9) c.ch,
      ⟨c.line + 1, 0⟩)
  | 8 =>
    some (replaceRange doc "```pseudocodice\n\n```".data c.line (c.ch - 8) c.ch,
      ⟨c.line + 1, 0⟩)
  | 9 =>
    some (replaceRange doc "\\begin\x7bcases\x7d\\end\x7bcases\x7d".data c.line (c.ch - 4) c.ch,
      ⟨c.line, c.ch - 15⟩)
  | 10 =>
    some (replaceRange doc "\\stackrel\x7b\x7d\x7b\x7d".data c.line (c.ch - 5) c.ch,
      ⟨c.line, c.ch - 8⟩)
  | _ => some (doc, cur)

/-- One iteration of `patterns.forEach`: the guard
`wordBeforeCursor && pattern.test(wordBeforeCursor)` short-circuits on an
empty token (the test, and hence the `lastIndex` update, then does not
run); otherwise the test updates the `lastIndex` of pattern `i` and on
success the switch body runs.  A `none` accumulator models an exception
already thrown: the loop is abandoned and nothing further runs. -/
def simStep (c : CurPos) (w : List Char) (s : List Nat × Option EditorState)
    (i : Nat) : List Nat × Option EditorState :=
  match s.2 with
  | none => (s.1, none)
  | some st =>
    if w = [] then (s.1, some st)
    else
      let t := jsTest (patterns.getD i []) (s.1.getD i 0) w
      let lis2 := s.1.set i t.2
      if t.1 then
        match applyRule c w i st.lines st.cursor with
        | some dp => (lis2, some ⟨dp.1, dp.2⟩)
        | none => (lis2, none)
      else (lis2, some st)

/-- The indices of the eleven patterns, in iteration order. -/
def ruleIdxs : List Nat := [0, 1, 2, 3, 4, 5, 6, 7, 8, 9, 10]

/-- The `mathSimplifier` method with the per-pattern `lastIndex` state
made explicit: the cursor and the token are read once before the loop,
then every pattern is tested in order. -/
def mathSimplifierS (lis : List Nat) (st : EditorState) :
    List Nat × Option EditorState :=
  ruleIdxs.foldl (simStep st.cursor (wordBeforeCursor st)) (lis, some st)

/-- A single invocation of `mathSimplifier` from the reset pattern state
(every `lastIndex` zero, as right after the plugin loads). -/
def mathSimplifier (st : EditorState) : Option EditorState :=
  (mathSimplifierS (List.replicate 11 0) st).2

/-- One step of the specification-level expansion: each matching rule
performs its replacement, computed against the cursor `c` read before the
first replacement; non-matching rules leave the state alone. -/
def pureStep (c : CurPos) (w : List Char) (acc : Option EditorState) (i : Nat) :
    Option EditorState :=
  match acc with
  | none => none
  | some s =>
    if w ≠ [] ∧ patMatches i w = true then
      match applyRule c w i s.lines s.cursor with
      | some dp => some ⟨dp.1, dp.2⟩
      | none => none
    else some s

/-- Specification-level expansion, following the spec text: test the
token against every rule in the fixed order and perform one replacement
per matching rule, sequentially, each computed against the cursor
coordinates read before the first replacement. -/
def expandMatchesInOrder (st : EditorState) : Option EditorState :=
  ruleIdxs.foldl (pureStep st.cursor (wordBeforeCursor st)) (some st)

/-- The `arr` rule of the earlier five-rule catalog (first variant): the
repeat count `Number(w[w.length - 1]) - 1` is not guarded, so a token
ending in the digit zero makes `repeat` throw (`none`); a `NaN` count is
converted to zero by `repeat` itself. -/
def oldCatalogArrWord (w : List Char) : Option (List Char) :=
  match jsNum (charFromEnd w 0) with
  | none =>
    some ("\\begin\x7barray\x7d\x7b".data ++ [] ++ "|c\x7d\\end\x7barray\x7d".data)
  | some n =>
    (jsRepeat 'c' ((n : Int) - 1)).map
      (fun r => "\\begin\x7barray\x7d\x7b".data ++ r ++ "|c\x7d\\end\x7barray\x7d".data)

/-- Setting one entry leaves the default-read of every other entry
unchanged. -/
theorem listGetD_set_ne (l : List Nat) (i j x : Nat) (h : i ≠ j) :
    (l.set i x).getD j 0 = l.getD j 0 := by
  simp [List.getD_eq_getElem?_getD, List.getElem?_set_ne h]

/-- The split of the line counter always yields at least one segment. -/
theorem splitDelims_ne_nil (l : List Char) : splitDelims l ≠ [] := by
  rw [splitDelims.eq_def]
  split
  · simp
  · simp
  · simp
  · split <;> simp

/-- The newline split always yields at least one segment. -/
theorem splitNL_ne_nil (l : List Char) : splitNL l ≠ [] := by
  rw [splitNL.eq_def]
  split
  · simp
  · split
    · simp
    · split <;> simp

/-- The element the source reads with `lines[amount - 1]` is the final
segment. -/
theorem getD_last_eq {α : Type} (l : List α) (d : α) :
    l.getD (l.length - 1) d = l.getLastD d := by
  rw [List.getD_eq_getElem?_getD, List.getLastD_eq_getLast?, List.getLast?_eq_getElem? l]

/-- A failed `isSome` check means the option is `none`. -/
theorem eq_none_of_isSome_false {α : Type} {o : Option α} (h : o.isSome = false) :
    o = none := by
  cases o <;> simp_all

/-- Splitting after prepending newline-free text extends the first
segment. -/
theorem splitNL_append (A x : List Char) (h : '\n' ∉ A) :
    splitNL (A ++ x) = (A ++ (splitNL x).headD []) :: (splitNL x).tail := by
  induction A with
  | nil =>
    cases hx : splitNL x with
    | nil => exact absurd hx (splitNL_ne_nil x)
    | cons s ss => simp [hx]
  | cons a A ih =>
    have ha : ¬(a = '\n') := by intro e; exact h (by simp [e])
    have hA : '\n' ∉ A := by intro e; exact h (by simp [e])
    rw [List.cons_append, splitNL.eq_def]
    simp only [if_neg ha]
    rw [ih hA]
    simp

/-- A newline-free text splits into a single line. -/
theorem splitNL_no_newline (A : List Char) (h : '\n' ∉ A) : splitNL A = [A] := by
  have e := splitNL_append A [] h
  have e0 : splitNL ([] : List Char) = [[]] := rfl
  rw [e0] at e
  simpa using e

/-- With an empty token, the loop body is the identity (the guard
short-circuits before the test). -/
theorem simStep_empty_word (c : CurPos) (s : List Nat × Option EditorState) (i : Nat) :
    simStep c [] s i = s := by
  match s with
  | (lis, none) => rfl
  | (lis, some st) => simp [simStep]

/-- Folding the loop body over any index list is the identity when the
token is empty. -/
theorem foldl_simStep_empty_word (c : CurPos) (idxs : List Nat)
    (s : List Nat × Option EditorState) :
    idxs.foldl (simStep c []) s = s := by
  induction idxs generalizing s with
  | nil => rfl
  | cons j t ih => rw [List.foldl_cons, simStep_empty_word]; exact ih s

/-- When no pattern of the index list finds a match from its stored
position, the loop changes nothing (each failed test resets the stored
position to zero, which is what it already was). -/
theorem foldl_simStep_noMatch (c : CurPos) (w : List Char) (hw : w ≠ []) :
    ∀ (idxs : List Nat) (lis : List Nat) (st : EditorState),
      (∀ i ∈ idxs, searchFrom (patterns.getD i []) w (lis.getD i 0) = none) →
      (∀ i ∈ idxs, lis.set i 0 = lis) →
      idxs.foldl (simStep c w) (lis, some st) = (lis, some st) := by
  intro idxs
  induction idxs with
  | nil => intro lis st _ _; rfl
  | cons i t ih =>
    intro lis st h1 h2
    rw [List.foldl_cons]
    have e : simStep c w (lis, some st) i = (lis, some st) := by
      simp only [simStep, if_neg hw, jsTest, h1 i (List.mem_cons_self i t)]
      rw [h2 i (List.mem_cons_self i t)]
      rfl
    rw [e]
    exact ih lis st (fun j hj => h1 j (List.mem_cons_of_mem i hj))
      (fun j hj => h2 j (List.mem_cons_of_mem i hj))

/-- The stateful loop agrees with the specification-level fold as long as
the stored positions of the indices still to be visited are zero and no
index is visited twice: each pattern is tested exactly once per
invocation, so it reads the position it had when the invocation
started. -/
theorem fold_sim_eq_pure (c : CurPos) (w : List Char) :
    ∀ (idxs : List Nat) (lis : List Nat) (acc : Option EditorState),
      idxs.Nodup → (∀ i ∈ idxs, lis.getD i 0 = 0) →
      (idxs.foldl (simStep c w) (lis, acc)).2 = idxs.foldl (pureStep c w) acc := by
  intro idxs
  induction idxs with
  | nil => intro lis acc _ _; rfl
  | cons i t ih =>
    intro lis acc hnd hz
    have hit : i ∉ t := (List.nodup_cons.mp hnd).1
    have hndt : t.Nodup := (List.nodup_cons.mp hnd).2
    have hzi : lis.getD i 0 = 0 := hz i (List.mem_cons_self i t)
    have hzt : ∀ (l2 : List Nat), (∀ j ∈ t, l2.getD j 0 = lis.getD j 0) →
        ∀ j ∈ t, l2.getD j 0 = 0 := by
      intro l2 hsame j hj
      rw [hsame j hj]
      exact hz j (List.mem_cons_of_mem i hj)
    rw [List.foldl_cons, List.foldl_cons]
    cases acc with
    | none =>
      have e1 : simStep c w (lis, none) i = (lis, none) := rfl
      rw [e1]
      exact ih lis none hndt (fun j hj => hz j (List.mem_cons_of_mem i hj))
    | some s =>
      by_cases hw : w = []
      · subst hw
        rw [simStep_empty_word]
        have e2 : pureStep c [] (some s) i = some s := by simp [pureStep]
        rw [e2]
        exact ih lis (some s) hndt (fun j hj => hz j (List.mem_cons_of_mem i hj))
      · have hset : ∀ (x : Nat) (j : Nat), j ∈ t → (lis.set i x).getD j 0 = 0 := by
          intro x j hj
          rw [listGetD_set_ne lis i j x (by intro e; exact hit (by rw [e]; exact hj))]
          exact hz j (List.mem_cons_of_mem i hj)
        cases hsf : searchFrom (patterns.getD i []) w 0 with
        | none =>
          have hpm : patMatches i w = false := by
            simp only [patMatches]
            rw [hsf]
            rfl
          have e1 : simStep c w (lis, some s) i = (lis.set i 0, some s) := by
            simp only [simStep, if_neg hw, jsTest, hzi, hsf]
            rfl
          have e2 : pureStep c w (some s) i = some s := by
            simp [pureStep, hpm]
          rw [e1, e2]
          exact ih (lis.set i 0) (some s) hndt (fun j hj => hset 0 j hj)
        | some endIdx =>
          have hpm : patMatches i w = true := by
            simp only [patMatches]
            rw [hsf]
            rfl
          cases har : applyRule c w i s.lines s.cursor with
          | some dp =>
            have e1 : simStep c w (lis, some s) i =
                (lis.set i endIdx, some ⟨dp.1, dp.2⟩) := by
              simp only [simStep, if_neg hw, jsTest, hzi, hsf, har]
              rfl
            have e2 : pureStep c w (some s) i = some ⟨dp.1, dp.2⟩ := by
              simp [pureStep, hw, hpm, har]
            rw [e1, e2]
            exact ih (lis.set i endIdx) (some ⟨dp.1, dp.2⟩) hndt
              (fun j hj => hset endIdx j hj)
          | none =>
            have e1 : simStep c w (lis, some s) i = (lis.set i endIdx, none) := by
              simp only [simStep, if_neg hw, jsTest, hzi, hsf, har]
              rfl
            have e2 : pureStep c w (some s) i = none := by
              simp [pureStep, hw, hpm, har]
            rw [e1, e2]
            exact ih (lis.set i endIdx) none hndt (fun j hj => hset endIdx j hj)

/-- A single invocation from the reset pattern state is exactly the
specification-level sequential expansion. -/
theorem sim_eq_pure (st : EditorState) :
    mathSimplifier st = expandMatchesInOrder st := by
  unfold mathSimplifier mathSimplifierS expandMatchesInOrder
  exact fold_sim_eq_pure st.cursor (wordBeforeCursor st) ruleIdxs
    (List.replicate 11 0) (some st) (by decide) (by decide)

/-- A run of the specification-level fold over indices whose patterns all
fail to match leaves the accumulator untouched. -/
theorem fold_pure_skip (c : CurPos) (w : List Char) :
    ∀ (idxs : List Nat) (acc : Option EditorState),
      (∀ j ∈ idxs, patMatches j w = false) →
      idxs.foldl (pureStep c w) acc = acc := by
  intro idxs
  induction idxs with
  | nil => intro acc _; rfl
  | cons j t ih =>
    intro acc h
    rw [List.foldl_cons]
    have e : pureStep c w acc j = acc := by
      cases acc with
      | none => rfl
      | some s => simp [pureStep, h j (List.mem_cons_self j t)]
    rw [e]
    exact ih acc (fun k hk => h k (List.mem_cons_of_mem j hk))

/-- When exactly one index of the list matches, the specification-level
fold is exactly that one rule application. -/
theorem fold_pure_single (c : CurPos) (w : List Char) (i : Nat)
    (hw : w ≠ []) (hm : patMatches i w = true) :
    ∀ (idxs : List Nat) (s : EditorState),
      i ∈ idxs → idxs.Nodup →
      (∀ j ∈ idxs, j ≠ i → patMatches j w = false) →
      idxs.foldl (pureStep c w) (some s) =
        (applyRule c w i s.lines s.cursor).map
          (fun dp => (⟨dp.1, dp.2⟩ : EditorState)) := by
  intro idxs
  induction idxs with
  | nil => intro s hmem _ _; cases hmem
  | cons j t ih =>
    intro s hmem hnd ho
    rw [List.foldl_cons]
    by_cases hj : j = i
    · subst hj
      have e : pureStep c w (some s) j =
          (applyRule c w j s.lines s.cursor).map
            (fun dp => (⟨dp.1, dp.2⟩ : EditorState)) := by
        cases har : applyRule c w j s.lines s.cursor with
        | some dp => simp [pureStep, hw, hm, har]
        | none => simp [pureStep, hw, hm, har]
      rw [e]
      apply fold_pure_skip
      intro k hk
      exact ho k (List.mem_cons_of_mem j hk)
        (fun e2 => (List.nodup_cons.mp hnd).1 (by rw [← e2]; exact hk))
    · have hjf : patMatches j w = false := ho j (List.mem_cons_self j t) hj
      have e : pureStep c w (some s) j = some s := by simp [pureStep, hjf]
      rw [e]
      have hmem2 : i ∈ t := by
        cases List.mem_cons.mp hmem with
        | inl h2 => exact absurd h2.symm hj
        | inr h2 => exact h2
      exact ih s hmem2 (List.nodup_cons.mp hnd).2
        (fun k hk hki => ho k (List.mem_cons_of_mem j hk) hki)

/-- When exactly one of the eleven patterns matches the token, a single
invocation of the expander performs exactly that one rule replacement. -/
theorem single_match_apply (st : EditorState) (i : Nat) (hi : i < 11)
    (hm : patMatches i (wordBeforeCursor st) = true)
    (ho : ∀ j, j < 11 → j ≠ i → patMatches j (wordBeforeCursor st) = false) :
    mathSimplifier st =
      (applyRule st.cursor (wordBeforeCursor st) i st.lines st.cursor).map
        (fun dp => (⟨dp.1, dp.2⟩ : EditorState)) := by
  have hw : wordBeforeCursor st ≠ [] := by
    intro h
    have hall : ∀ j, j < 11 → patMatches j ([] : List Char) = false := by decide
    rw [h] at hm
    rw [hall i hi] at hm
    cases hm
  have hmem : i ∈ ruleIdxs := by
    have h2 : ∀ j, j < 11 → j ∈ ruleIdxs := by decide
    exact h2 i hi
  rw [sim_eq_pure]
  unfold expandMatchesInOrder
  apply fold_pure_single st.cursor (wordBeforeCursor st) i hw hm ruleIdxs st hmem (by decide)
  intro j hj hji
  have hj11 : j < 11 := by
    have h2 : ∀ k, k ∈ ruleIdxs → k < 11 := by decide
    exact h2 j hj
  exact ho j hj11 hji

/-- No rule of the extended catalog can throw: the only call to `repeat`
sits behind the `amount > 0` guard, so its count is non-negative. -/
theorem applyRule_isSome (c : CurPos) (w : List Char) (i : Nat)
    (doc : List (List Char)) (cur : CurPos) :
    (applyRule c w i doc cur).isSome = true := by
  match i with
  | 0 =>
    simp only [applyRule]
    cases hn : jsNum (charFromEnd w 0) with
    | none => simp
    | some n =>
      by_cases h : 0 < n
      · have h2 : ¬((n : Int) - 1 < 0) := by omega
        simp [h, jsRepeat, h2]
      · simp [h]
  | 1 => rfl
  | 2 => rfl
  | 3 => rfl
  | 4 => rfl
  | 5 => rfl
  | 6 => rfl
  | 7 => rfl
  | 8 => rfl
  | 9 => rfl
  | 10 => rfl
  | (n + 11) => rfl

/-- The specification-level fold preserves definedness. -/
theorem fold_pure_isSome (c : CurPos) (w : List Char) :
    ∀ (idxs : List Nat) (acc : Option EditorState), acc.isSome = true →
      (idxs.foldl (pureStep c w) acc).isSome = true := by
  intro idxs
  induction idxs with
  | nil => intro acc h; exact h
  | cons j t ih =>
    intro acc h
    rw [List.foldl_cons]
    apply ih
    cases acc with
    | none => simp at h
    | some s =>
      by_cases hc : w ≠ [] ∧ patMatches j w = true
      · have h3 := applyRule_isSome c w j s.lines s.cursor
        cases har : applyRule c w j s.lines s.cursor with
        | none => rw [har] at h3; simp at h3
        | some dp => simp [pureStep, hc, har]
      · simp [pureStep, hc]

/-- A single invocation of the expander never throws. -/
theorem mathSimplifier_isSome (st : EditorState) :
    (mathSimplifier st).isSome = true := by
  rw [sim_eq_pure]
  exact fold_pure_isSome st.cursor (wordBeforeCursor st) ruleIdxs (some st) rfl

/-- When no pattern finds a match from its stored position, the loop
changes neither the stored positions nor the editor state. -/
theorem noMatch_run (st : EditorState)
    (h : ∀ i, i < 11 → patMatches i (wordBeforeCursor st) = false) :
    mathSimplifierS (List.replicate 11 0) st = (List.replicate 11 0, some st) := by
  unfold mathSimplifierS
  by_cases hw : wordBeforeCursor st = []
  · rw [hw]
    exact foldl_simStep_empty_word st.cursor ruleIdxs _
  · apply foldl_simStep_noMatch st.cursor (wordBeforeCursor st) hw
    · intro i hi
      have hi11 : i < 11 := by
        have h2 : ∀ k, k ∈ ruleIdxs → k < 11 := by decide
        exact h2 i hi
      have hz : (List.replicate 11 (0 : Nat)).getD i 0 = 0 := by
        rw [List.getD_eq_getElem?_getD, List.getElem?_replicate, if_pos hi11]
        rfl
      rw [hz]
      exact eq_none_of_isSome_false (h i hi11)
    · intro i hi
      revert i
      decide

/-- C2 counterexample: for the empty document text the status display is
hidden, and hidden is not the display state showing the text
"Lines: 1" that the claim asserts. -/
theorem c2_counterexample :
    updateLineCount (some ("".data)) = StatusDisplay.hidden ∧
    StatusDisplay.hidden ≠ StatusDisplay.shown "Lines: 1".data := by
  decide

/-- C2 (amended): for the empty document text the status display is
hidden: the empty string fails the JavaScript content-presence guard
(`if (!fileContent)`), which treats it exactly like an absent document,
so no count is shown at all. -/
theorem c2_empty_hides : updateLineCount (some ("".data)) = StatusDisplay.hidden := by
  decide

/-- C3 counterexample: the universally quantified display equation fails
at the defined document text "": the display is hidden there rather than
showing the count the splitting formula prescribes. -/
theorem c3_counterexample :
    updateLineCount (some ("".data)) ≠
      StatusDisplay.shown ("Lines: ".data ++ (toString (specLineCount "".data)).data) := by
  decide

/-- C3 (amended): for every nonempty document text the displayed line
count equals the number of segments obtained by splitting on newline or
two consecutive dollar signs, minus one exactly when the final segment is
empty; when the document content is undefined (and likewise when it is
the empty string, by the falsiness guard) the status display is hidden.
In particular the text with two lines and a trailing newline displays
"Lines: 2". -/
theorem c3_nonempty_count :
    (∀ t : List Char, t ≠ [] →
      updateLineCount (some t) =
        StatusDisplay.shown ("Lines: ".data ++ (toString (specLineCount t)).data)) ∧
    updateLineCount none = StatusDisplay.hidden ∧
    updateLineCount (some "a\nb\n".data) = StatusDisplay.shown "Lines: 2".data := by
  refine ⟨?_, rfl, by decide⟩
  intro t ht
  simp only [updateLineCount, specLineCount]
  rw [if_neg ht, getD_last_eq]

/-- Witness for the amended C3 at a concrete one-character document. -/
theorem c3_nonempty_count_witness :
    updateLineCount (some "x".data) =
      StatusDisplay.shown ("Lines: ".data ++ (toString (specLineCount "x".data)).data) :=
  c3_nonempty_count.1 "x".data (by decide)

/-- C1 counterexample: the rule list is not read-only state.  On an
editor state whose token is "arr3", the first invocation from the reset
pattern state performs the array replacement and leaves the first
pattern with `lastIndex` four; the second invocation, run from the state
the first one left behind on an identical copy of the editor state,
performs no replacement at all, because the pattern searches from index
four, past the token. -/
theorem c1_replay_counterexample :
    (mathSimplifierS (List.replicate 11 0) ⟨["arr3".data], ⟨0, 4⟩⟩).2 =
      some ⟨["\\begin\x7barray\x7d\x7bcc|c\x7d\\end\x7barray\x7d".data], ⟨0, 0⟩⟩ ∧
    (mathSimplifierS (mathSimplifierS (List.replicate 11 0) ⟨["arr3".data], ⟨0, 4⟩⟩).1
        ⟨["arr3".data], ⟨0, 4⟩⟩).2 = some ⟨["arr3".data], ⟨0, 4⟩⟩ ∧
    (some (⟨["arr3".data], ⟨0, 4⟩⟩ : EditorState) ≠
      some (⟨["\\begin\x7barray\x7d\x7bcc|c\x7d\\end\x7barray\x7d".data], ⟨0, 0⟩⟩ : EditorState)) := by
  decide

/-- C1 (amended): the expansion step is deterministic only relative to
the per-pattern `lastIndex` state that the global-flag regexes of the rule
list carry between invocations.  On any editor state on which no rule
fires, an invocation from the reset pattern state leaves the pattern
state reset and the editor state unchanged, so an immediately repeated
invocation on an identical copy of the state performs exactly the same
(no) replacements; when a rule does fire, the matched pattern keeps its
advanced `lastIndex`, and the replay can differ (see the
counterexample). -/
theorem c1_nonfiring_replay (st : EditorState)
    (h : ∀ i, i < 11 → patMatches i (wordBeforeCursor st) = false) :
    mathSimplifierS (List.replicate 11 0) st = (List.replicate 11 0, some st) ∧
    mathSimplifierS (mathSimplifierS (List.replicate 11 0) st).1 st =
      mathSimplifierS (List.replicate 11 0) st := by
  have h1 := noMatch_run st h
  refine ⟨h1, ?_⟩
  have h2 : (mathSimplifierS (List.replicate 11 0) st).1 = List.replicate 11 0 := by
    rw [h1]
  rw [h2, h1]

/-- Witness for the amended C1 at a concrete non-matching state. -/
theorem c1_nonfiring_replay_witness :
    mathSimplifierS (List.replicate 11 0) ⟨["hi".data], ⟨0, 2⟩⟩ =
      (List.replicate 11 0, some ⟨["hi".data], ⟨0, 2⟩⟩) ∧
    mathSimplifierS (mathSimplifierS (List.replicate 11 0) ⟨["hi".data], ⟨0, 2⟩⟩).1
        ⟨["hi".data], ⟨0, 2⟩⟩ =
      mathSimplifierS (List.replicate 11 0) ⟨["hi".data], ⟨0, 2⟩⟩ :=
  c1_nonfiring_replay ⟨["hi".data], ⟨0, 2⟩⟩ (by decide)

/-- C4 counterexample: on the line with four filler characters, a space
and the token before the cursor at column ten, the expander does insert
the stacked-relation template, but it then puts the cursor at column two,
which is not column fifteen, the column ten characters after the
insertion start (column five) where the interior of the first pair of
braces sits. -/
theorem c4_cursor_counterexample :
    mathSimplifier ⟨["xxxx \\defn".data], ⟨0, 10⟩⟩ =
      some ⟨["xxxx \\stackrel\x7b\x7d\x7b\x7d".data], ⟨0, 2⟩⟩ ∧
    (2 : Nat) ≠ 5 + 10 := by
  decide

/-- C4 (amended): when the token immediately before the cursor is the
stacked-relation trigger, the expander replaces the five-character span
ending at the cursor with the stacked-relation template, and then sets
the cursor eight columns before the original cursor column (clamped at
the line start), which is three columns before the insertion start -
not between the first pair of braces of the inserted text. -/
theorem c4_defn_expansion (st : EditorState)
    (hw : wordBeforeCursor st = "\\defn".data) :
    mathSimplifier st =
      some ⟨replaceRange st.lines "\\stackrel\x7b\x7d\x7b\x7d".data
              st.cursor.line (st.cursor.ch - 5) st.cursor.ch,
            ⟨st.cursor.line, st.cursor.ch - 8⟩⟩ := by
  have h := single_match_apply st 10 (by omega) (by rw [hw]; decide)
    (by intro j hj hne; rw [hw]; interval_cases j <;>
      first
        | exact absurd rfl hne
        | decide)
  rw [h, hw]
  rfl

/-- Witness for the amended C4 at a concrete state. -/
theorem c4_defn_expansion_witness :
    mathSimplifier ⟨["abcd \\defn".data], ⟨0, 10⟩⟩ =
      some ⟨replaceRange ["abcd \\defn".data] "\\stackrel\x7b\x7d\x7b\x7d".data 0 (10 - 5) 10,
            ⟨0, 10 - 8⟩⟩ :=
  c4_defn_expansion ⟨["abcd \\defn".data], ⟨0, 10⟩⟩ (by decide)

/-- C6: the expansion step is a silent no-op when the text from the
start of the cursor line to the cursor is empty, or when the token
before the cursor matches none of the eleven rule patterns: the document
and the cursor are both left exactly as they were. -/
theorem c6_no_match_noop (st : EditorState)
    (h : ((st.lines.getD st.cursor.line []).take st.cursor.ch = []) ∨
      (∀ i, i < 11 → patMatches i (wordBeforeCursor st) = false)) :
    mathSimplifier st = some st := by
  have hall : ∀ i, i < 11 → patMatches i (wordBeforeCursor st) = false := by
    cases h with
    | inl h2 =>
      intro i hi
      have hw : wordBeforeCursor st = [] := by
        unfold wordBeforeCursor
        rw [h2]
        rfl
      rw [hw]
      have hd : ∀ j, j < 11 → patMatches j ([] : List Char) = false := by decide
      exact hd i hi
    | inr h2 => exact h2
  rw [sim_eq_pure]
  unfold expandMatchesInOrder
  apply fold_pure_skip
  intro j hj
  have hj11 : j < 11 := by
    have h2 : ∀ k, k ∈ ruleIdxs → k < 11 := by decide
    exact h2 j hj
  exact hall j hj11

/-- Witness for C6 at a concrete state whose token matches no rule. -/
theorem c6_no_match_noop_witness :
    mathSimplifier ⟨["hello".data], ⟨0, 5⟩⟩ = some ⟨["hello".data], ⟨0, 5⟩⟩ :=
  c6_no_match_noop ⟨["hello".data], ⟨0, 5⟩⟩ (Or.inr (by decide))

/-- C7: when the token immediately before the cursor is the array
trigger with digit three, the expander consumes the four characters
before the cursor and inserts the array environment whose column
specification is exactly two center-aligned columns followed by a rule
and one more column. -/
theorem c7_arr3_expansion (st : EditorState)
    (hw : wordBeforeCursor st = "arr3".data) :
    mathSimplifier st =
      some ⟨replaceRange st.lines "\\begin\x7barray\x7d\x7bcc|c\x7d\\end\x7barray\x7d".data
              st.cursor.line (st.cursor.ch - 4) st.cursor.ch,
            ⟨st.cursor.line, st.cursor.ch - 16⟩⟩ := by
  have h := single_match_apply st 0 (by omega) (by rw [hw]; decide)
    (by intro j hj hne; rw [hw]; interval_cases j <;>
      first
        | exact absurd rfl hne
        | decide)
  rw [h, hw]
  rfl

/-- Witness for C7 at a concrete state. -/
theorem c7_arr3_expansion_witness :
    mathSimplifier ⟨["arr3".data], ⟨0, 4⟩⟩ =
      some ⟨replaceRange ["arr3".data] "\\begin\x7barray\x7d\x7bcc|c\x7d\\end\x7barray\x7d".data
              0 (4 - 4) 4,
            ⟨0, 4 - 16⟩⟩ :=
  c7_arr3_expansion ⟨["arr3".data], ⟨0, 4⟩⟩ (by decide)

/-- C9: the extended catalog is total - no invocation of the expander
can throw, because its only `repeat` call sits behind the positivity
guard - and on the array trigger with digit zero it inserts the array
environment with an empty column specification.  The unguarded repeat of
the earlier five-rule catalog, by contrast, throws on that same token
(negative repeat count), which is what the guard makes unreachable
here. -/
theorem c9_arr0_guarded :
    (∀ st : EditorState, (mathSimplifier st).isSome = true) ∧
    (∀ st : EditorState, wordBeforeCursor st = "arr0".data →
      mathSimplifier st =
        some ⟨replaceRange st.lines "\\begin\x7barray\x7d\x7b\x7d\\end\x7barray\x7d".data
                st.cursor.line (st.cursor.ch - 4) st.cursor.ch,
              ⟨st.cursor.line, st.cursor.ch - 16⟩⟩) ∧
    oldCatalogArrWord "arr0".data = none := by
  refine ⟨mathSimplifier_isSome, ?_, by decide⟩
  intro st hw
  have h := single_match_apply st 0 (by omega) (by rw [hw]; decide)
    (by intro j hj hne; rw [hw]; interval_cases j <;>
      first
        | exact absurd rfl hne
        | decide)
  rw [h, hw]
  rfl

/-- Witness for C9 at a concrete state. -/
theorem c9_arr0_guarded_witness :
    mathSimplifier ⟨["arr0".data], ⟨0, 4⟩⟩ =
      some ⟨replaceRange ["arr0".data] "\\begin\x7barray\x7d\x7b\x7d\\end\x7barray\x7d".data
              0 (4 - 4) 4,
            ⟨0, 4 - 16⟩⟩ :=
  c9_arr0_guarded.2.1 ⟨["arr0".data], ⟨0, 4⟩⟩ (by decide)

/-- A thrown exception propagates: the rest of the fold does nothing. -/
theorem fold_pure_none (c : CurPos) (w : List Char) (idxs : List Nat) :
    idxs.foldl (pureStep c w) none = none := by
  induction idxs with
  | nil => rfl
  | cons j t ih => rw [List.foldl_cons]; exact ih

/-- C5: rule matching does not short-circuit.  First, a single
invocation of the expander is exactly the specification-level fold that
tests the token against every rule in the fixed order and performs one
replacement per matching rule, sequentially, each computed against the
cursor coordinates read before the first replacement.  Second, spelled
out for a token matching exactly the rules at indices zero and two: the
invocation is the composition of the two rule applications, in rule
order, both against the original cursor. -/
theorem c5_no_short_circuit :
    (∀ st : EditorState, mathSimplifier st = expandMatchesInOrder st) ∧
    (∀ st : EditorState,
      patMatches 0 (wordBeforeCursor st) = true →
      patMatches 2 (wordBeforeCursor st) = true →
      (∀ j, j < 11 → j ≠ 0 → j ≠ 2 → patMatches j (wordBeforeCursor st) = false) →
      mathSimplifier st =
        (applyRule st.cursor (wordBeforeCursor st) 0 st.lines st.cursor).bind
          (fun dp => (applyRule st.cursor (wordBeforeCursor st) 2 dp.1 dp.2).map
            (fun dp2 => (⟨dp2.1, dp2.2⟩ : EditorState)))) := by
  refine ⟨sim_eq_pure, ?_⟩
  intro st h0 h2 ho
  have hw : wordBeforeCursor st ≠ [] := by
    intro he
    rw [he] at h0
    revert h0
    decide
  have h1 : patMatches 1 (wordBeforeCursor st) = false := ho 1 (by omega) (by omega) (by omega)
  rw [sim_eq_pure]
  unfold expandMatchesInOrder ruleIdxs
  simp only [List.foldl_cons, List.foldl_nil]
  have en : ∀ (a : Nat), pureStep st.cursor (wordBeforeCursor st) none a = none :=
    fun a => rfl
  cases harA : applyRule st.cursor (wordBeforeCursor st) 0 st.lines st.cursor with
  | none =>
    have e0 : pureStep st.cursor (wordBeforeCursor st) (some st) 0 = none := by
      simp [pureStep, hw, h0, harA]
    rw [e0]
    simp only [en]
    rfl
  | some dp =>
    have e0 : pureStep st.cursor (wordBeforeCursor st) (some st) 0 =
        some ⟨dp.1, dp.2⟩ := by
      simp [pureStep, hw, h0, harA]
    rw [e0]
    have e1 : pureStep st.cursor (wordBeforeCursor st) (some (⟨dp.1, dp.2⟩ : EditorState)) 1 =
        some ⟨dp.1, dp.2⟩ := by
      simp [pureStep, h1]
    rw [e1]
    cases harB : applyRule st.cursor (wordBeforeCursor st) 2 dp.1 dp.2 with
    | none =>
      have e2 : pureStep st.cursor (wordBeforeCursor st) (some (⟨dp.1, dp.2⟩ : EditorState)) 2 =
          none := by
        simp [pureStep, hw, h2, harB]
      rw [e2]
      simp only [en]
      simp [harB]
    | some dp2 =>
      have e2 : pureStep st.cursor (wordBeforeCursor st) (some (⟨dp.1, dp.2⟩ : EditorState)) 2 =
          some ⟨dp2.1, dp2.2⟩ := by
        simp [pureStep, hw, h2, harB]
      rw [e2]
      have e3 : pureStep st.cursor (wordBeforeCursor st) (some (⟨dp2.1, dp2.2⟩ : EditorState)) 3 =
          some ⟨dp2.1, dp2.2⟩ := by
        simp [pureStep, ho 3 (by omega) (by omega) (by omega)]
      have e4 : pureStep st.cursor (wordBeforeCursor st) (some (⟨dp2.1, dp2.2⟩ : EditorState)) 4 =
          some ⟨dp2.1, dp2.2⟩ := by
        simp [pureStep, ho 4 (by omega) (by omega) (by omega)]
      have e5 : pureStep st.cursor (wordBeforeCursor st) (some (⟨dp2.1, dp2.2⟩ : EditorState)) 5 =
          some ⟨dp2.1, dp2.2⟩ := by
        simp [pureStep, ho 5 (by omega) (by omega) (by omega)]
      have e6 : pureStep st.cursor (wordBeforeCursor st) (some (⟨dp2.1, dp2.2⟩ : EditorState)) 6 =
          some ⟨dp2.1, dp2.2⟩ := by
        simp [pureStep, ho 6 (by omega) (by omega) (by omega)]
      have e7 : pureStep st.cursor (wordBeforeCursor st) (some (⟨dp2.1, dp2.2⟩ : EditorState)) 7 =
          some ⟨dp2.1, dp2.2⟩ := by
        simp [pureStep, ho 7 (by omega) (by omega) (by omega)]
      have e8 : pureStep st.cursor (wordBeforeCursor st) (some (⟨dp2.1, dp2.2⟩ : EditorState)) 8 =
          some ⟨dp2.1, dp2.2⟩ := by
        simp [pureStep, ho 8 (by omega) (by omega) (by omega)]
      have e9 : pureStep st.cursor (wordBeforeCursor st) (some (⟨dp2.1, dp2.2⟩ : EditorState)) 9 =
          some ⟨dp2.1, dp2.2⟩ := by
        simp [pureStep, ho 9 (by omega) (by omega) (by omega)]
      have e10 : pureStep st.cursor (wordBeforeCursor st) (some (⟨dp2.1, dp2.2⟩ : EditorState)) 10 =
          some ⟨dp2.1, dp2.2⟩ := by
        simp [pureStep, ho 10 (by omega) (by omega) (by omega)]
      rw [e3, e4, e5, e6, e7, e8, e9, e10]
      simp [harB]

/-- Witness for C5 at a concrete state whose token matches exactly the
rules at indices zero and two. -/
theorem c5_no_short_circuit_witness :
    mathSimplifier ⟨["\\parsarr2".data], ⟨0, 9⟩⟩ =
      (applyRule ⟨0, 9⟩ (wordBeforeCursor ⟨["\\parsarr2".data], ⟨0, 9⟩⟩) 0
          ["\\parsarr2".data] ⟨0, 9⟩).bind
        (fun dp => (applyRule ⟨0, 9⟩ (wordBeforeCursor ⟨["\\parsarr2".data], ⟨0, 9⟩⟩) 2
            dp.1 dp.2).map
          (fun dp2 => (⟨dp2.1, dp2.2⟩ : EditorState))) :=
  c5_no_short_circuit.2 ⟨["\\parsarr2".data], ⟨0, 9⟩⟩ (by decide) (by decide) (by decide)

/-- A leading newline opens a fresh segment. -/
theorem splitNL_cons_nl (x : List Char) : splitNL ('\n' :: x) = [] :: splitNL x := by
  rw [splitNL.eq_def]
  simp

/-- C8: when the token immediately before the cursor is the python
code-fence trigger, the expander replaces the seven-character span
ending at the cursor with the three-line fenced block whose opening
fence is tagged python, and places the cursor at column zero of the
middle line of the block, which is empty.  The hypotheses ask for a real
cursor line that contains no raw newline character, the invariant the
host editor maintains for its line store. -/
theorem c8_prg_py_expansion (st : EditorState)
    (hw : wordBeforeCursor st = "\\prg:py".data)
    (hl : st.cursor.line < st.lines.length)
    (hn : '\n' ∉ st.lines.getD st.cursor.line []) :
    ∃ d : List (List Char),
      mathSimplifier st = some ⟨d, ⟨st.cursor.line + 1, 0⟩⟩ ∧
      d = st.lines.take st.cursor.line ++
          ((st.lines.getD st.cursor.line []).take (st.cursor.ch - 7) ++ "```python".data) ::
          ([] : List Char) ::
          ("```".data ++ (st.lines.getD st.cursor.line []).drop st.cursor.ch) ::
          st.lines.drop (st.cursor.line + 1) ∧
      d.getD (st.cursor.line + 1) [] = [] := by
  have h := single_match_apply st 5 (by omega) (by rw [hw]; decide)
    (by intro j hj hne; rw [hw]; interval_cases j <;>
      first
        | exact absurd rfl hne
        | decide)
  rw [hw] at h
  have hP : '\n' ∉ (st.lines.getD st.cursor.line []).take (st.cursor.ch - 7) :=
    fun hm => hn (List.take_subset _ _ hm)
  have hS : '\n' ∉ (st.lines.getD st.cursor.line []).drop st.cursor.ch :=
    fun hm => hn (List.drop_subset _ _ hm)
  have h3 : '\n' ∉ ("```".data ++ (st.lines.getD st.cursor.line []).drop st.cursor.ch) := by
    intro hm
    rcases List.mem_append.mp hm with h4 | h4
    · revert h4; decide
    · exact hS h4
  have hA : '\n' ∉ ((st.lines.getD st.cursor.line []).take (st.cursor.ch - 7) ++
      "```python".data) := by
    intro hm
    rcases List.mem_append.mp hm with h4 | h4
    · exact hP h4
    · revert h4; decide
  have e2 : (st.lines.getD st.cursor.line []).take (st.cursor.ch - 7) ++
        "```python\n\n```".data ++ (st.lines.getD st.cursor.line []).drop st.cursor.ch =
      (((st.lines.getD st.cursor.line []).take (st.cursor.ch - 7) ++ "```python".data) ++
        ('\n' :: ('\n' :: ("```".data ++
          (st.lines.getD st.cursor.line []).drop st.cursor.ch)))) := by
    rw [show ("```python\n\n```".data : List Char) =
      "```python".data ++ ('\n' :: ('\n' :: "```".data)) from rfl]
    simp [List.append_assoc]
  have hx1 : splitNL ('\n' :: ('\n' ::
      ("```".data ++ (st.lines.getD st.cursor.line []).drop st.cursor.ch))) =
      [] :: ([] : List Char) ::
        ("```".data ++ (st.lines.getD st.cursor.line []).drop st.cursor.ch) :: [] := by
    rw [splitNL_cons_nl, splitNL_cons_nl, splitNL_no_newline _ h3]
  have hsplit : splitNL ((st.lines.getD st.cursor.line []).take (st.cursor.ch - 7) ++
        "```python\n\n```".data ++ (st.lines.getD st.cursor.line []).drop st.cursor.ch) =
      ((st.lines.getD st.cursor.line []).take (st.cursor.ch - 7) ++ "```python".data) ::
      ([] : List Char) ::
      ("```".data ++ (st.lines.getD st.cursor.line []).drop st.cursor.ch) :: [] := by
    rw [e2, splitNL_append _ _ hA, hx1]
    simp
  refine ⟨_, ?_, rfl, ?_⟩
  · rw [h]
    show some (⟨replaceRange st.lines "```python\n\n```".data
        st.cursor.line (st.cursor.ch - 7) st.cursor.ch, ⟨st.cursor.line + 1, 0⟩⟩ :
        EditorState) = _
    have hrr : replaceRange st.lines "```python\n\n```".data
        st.cursor.line (st.cursor.ch - 7) st.cursor.ch =
        st.lines.take st.cursor.line ++
          splitNL ((st.lines.getD st.cursor.line []).take (st.cursor.ch - 7) ++
            "```python\n\n```".data ++
            (st.lines.getD st.cursor.line []).drop st.cursor.ch) ++
          st.lines.drop (st.cursor.line + 1) := rfl
    rw [hrr, hsplit]
    simp
  · have hlen : (st.lines.take st.cursor.line).length = st.cursor.line := by
      rw [List.length_take]
      omega
    rw [List.getD_eq_getElem?_getD,
      List.getElem?_append_right (by rw [hlen]; omega), hlen]
    have hone : st.cursor.line + 1 - st.cursor.line = 1 := by omega
    rw [hone]
    rfl

/-- Witness for C8 at a concrete state. -/
theorem c8_prg_py_expansion_witness :
    ∃ d : List (List Char),
      mathSimplifier ⟨["ab \\prg:py".data], ⟨0, 10⟩⟩ = some ⟨d, ⟨0 + 1, 0⟩⟩ ∧
      d = (["ab \\prg:py".data] : List (List Char)).take 0 ++
          (((["ab \\prg:py".data] : List (List Char)).getD 0 []).take (10 - 7) ++
            "```python".data) ::
          ([] : List Char) ::
          ("```".data ++ ((["ab \\prg:py".data] : List (List Char)).getD 0 []).drop 10) ::
          (["ab \\prg:py".data] : List (List Char)).drop (0 + 1) ∧
      d.getD (0 + 1) [] = [] :=
  c8_prg_py_expansion ⟨["ab \\prg:py".data], ⟨0, 10⟩⟩ (by decide) (by decide) (by decide)

/-- The array rule always produces a replacement of the fixed shape: an
array environment around some column specification, spanning the four
characters before the cursor, with the fixed cursor repositioning. -/
theorem applyRule0_shape (c : CurPos) (w : List Char) (doc : List (List Char))
    (cur : CurPos) :
    ∃ mid : List Char, applyRule c w 0 doc cur =
      some (replaceRange doc
        ("\\begin\x7barray\x7d\x7b".data ++ mid ++ "\x7d\\end\x7barray\x7d".data)
        c.line (c.ch - 4) c.ch,
        ⟨c.line, c.ch - 16⟩) := by
  cases hn : jsNum (charFromEnd w 0) with
  | none =>
    refine ⟨[], ?_⟩
    simp only [applyRule, hn]
    rfl
  | some n =>
    by_cases hpos : 0 < n
    · have h2 : ¬((n : Int) - 1 < 0) := by omega
      refine ⟨List.replicate ((n : Int) - 1).toNat 'c' ++ "|c".data, ?_⟩
      simp only [applyRule, hn, if_pos hpos, jsRepeat, if_neg h2]
      rfl
    · refine ⟨[], ?_⟩
      simp only [applyRule, hn, if_neg hpos]
      rfl

/-- C10: frame property.  Whenever exactly one of the eleven rules
matches the token before the cursor, the expander rewrites only the span
of that rule of fixed consumed length ending at the cursor column: the
lines above the cursor line are kept, the part of the cursor line
before the span is kept, some inserted text replaces the span, and the
rest of the cursor line from the cursor on, as well as all following
lines, are preserved verbatim after the insertion. -/
theorem c10_frame (st : EditorState) (i : Nat) (hi : i < 11)
    (hm : patMatches i (wordBeforeCursor st) = true)
    (ho : ∀ j, j < 11 → j ≠ i → patMatches j (wordBeforeCursor st) = false) :
    ∃ (ins : List Char) (d : EditorState),
      mathSimplifier st = some d ∧
      d.lines = st.lines.take st.cursor.line ++
        splitNL ((st.lines.getD st.cursor.line []).take (st.cursor.ch - consumedLen i) ++
          ins ++ (st.lines.getD st.cursor.line []).drop st.cursor.ch) ++
        st.lines.drop (st.cursor.line + 1) := by
  have h := single_match_apply st i hi hm ho
  interval_cases i
  · obtain ⟨mid, hshape⟩ :=
      applyRule0_shape st.cursor (wordBeforeCursor st) st.lines st.cursor
    exact ⟨"\\begin\x7barray\x7d\x7b".data ++ mid ++ "\x7d\\end\x7barray\x7d".data,
      ⟨replaceRange st.lines
        ("\\begin\x7barray\x7d\x7b".data ++ mid ++ "\x7d\\end\x7barray\x7d".data)
        st.cursor.line (st.cursor.ch - 4) st.cursor.ch,
        ⟨st.cursor.line, st.cursor.ch - 16⟩⟩,
      by rw [h, hshape]; rfl, rfl⟩
  · exact ⟨"M_\x7b".data ++ numToStr (jsNum (charFromEnd (wordBeforeCursor st) 2)) ++
      ",".data ++ numToStr (jsNum (charFromEnd (wordBeforeCursor st) 0)) ++
      "\x7d = \\pmatrix\x7b\x7d".data,
      ⟨replaceRange st.lines
        ("M_\x7b".data ++ numToStr (jsNum (charFromEnd (wordBeforeCursor st) 2)) ++
          ",".data ++ numToStr (jsNum (charFromEnd (wordBeforeCursor st) 0)) ++
          "\x7d = \\pmatrix\x7b\x7d".data)
        st.cursor.line (st.cursor.ch - 4) st.cursor.ch,
        st.cursor⟩,
      by rw [h]; rfl, rfl⟩
  · exact ⟨"\\left(\\right)".data,
      ⟨replaceRange st.lines "\\left(\\right)".data
        st.cursor.line (st.cursor.ch - 5) st.cursor.ch,
        ⟨st.cursor.line, st.cursor.ch - 12⟩⟩,
      by rw [h]; rfl, rfl⟩
  · exact ⟨"```\n\n```".data,
      ⟨replaceRange st.lines "```\n\n```".data
        st.cursor.line (st.cursor.ch - 5) st.cursor.ch,
        ⟨st.cursor.line + 1, 0⟩⟩,
      by rw [h]; rfl, rfl⟩
  · exact ⟨"```js\n\n```".data,
      ⟨replaceRange st.lines "```js\n\n```".data
        st.cursor.line (st.cursor.ch - 7) st.cursor.ch,
        ⟨st.cursor.line + 1, 0⟩⟩,
      by rw [h]; rfl, rfl⟩
  · exact ⟨"```python\n\n```".data,
      ⟨replaceRange st.lines "```python\n\n```".data
        st.cursor.line (st.cursor.ch - 7) st.cursor.ch,
        ⟨st.cursor.line + 1, 0⟩⟩,
      by rw [h]; rfl, rfl⟩
  · exact ⟨"```cpp\n\n```".data,
      ⟨replaceRange st.lines "```cpp\n\n```".data
        st.cursor.line (st.cursor.ch - 8) st.cursor.ch,
        ⟨st.cursor.line + 1, 0⟩⟩,
      by rw [h]; rfl, rfl⟩
  · exact ⟨"```java\n\n```".data,
      ⟨replaceRange st.lines "```java\n\n```".data
        st.cursor.line (st.cursor.ch - 9) st.cursor.ch,
        ⟨st.cursor.line + 1, 0⟩⟩,
      by rw [h]; rfl, rfl⟩
  · exact ⟨"```pseudocodice\n\n```".data,
      ⟨replaceRange st.lines "```pseudocodice\n\n```".data
        st.cursor.line (st.cursor.ch - 8) st.cursor.ch,
        ⟨st.cursor.line + 1, 0⟩⟩,
      by rw [h]; rfl, rfl⟩
  · exact ⟨"\\begin\x7bcases\x7d\\end\x7bcases\x7d".data,
      ⟨replaceRange st.lines "\\begin\x7bcases\x7d\\end\x7bcases\x7d".data
        st.cursor.line (st.cursor.ch - 4) st.cursor.ch,
        ⟨st.cursor.line, st.cursor.ch - 15⟩⟩,
      by rw [h]; rfl, rfl⟩
  · exact ⟨"\\stackrel\x7b\x7d\x7b\x7d".data,
      ⟨replaceRange st.lines "\\stackrel\x7b\x7d\x7b\x7d".data
        st.cursor.line (st.cursor.ch - 5) st.cursor.ch,
        ⟨st.cursor.line, st.cursor.ch - 8⟩⟩,
      by rw [h]; rfl, rfl⟩

/-- Witness for C10 at a concrete state whose token matches exactly the
cases-environment rule. -/
theorem c10_frame_witness :
    ∃ (ins : List Char) (d : EditorState),
      mathSimplifier ⟨["\\sys".data], ⟨0, 4⟩⟩ = some d ∧
      d.lines = (["\\sys".data] : List (List Char)).take 0 ++
        splitNL (((["\\sys".data] : List (List Char)).getD 0 []).take (4 - consumedLen 9) ++
          ins ++ ((["\\sys".data] : List (List Char)).getD 0 []).drop 4) ++
        (["\\sys".data] : List (List Char)).drop (0 + 1) :=
  c10_frame ⟨["\\sys".data], ⟨0, 4⟩⟩ 9 (by omega) (by decide) (by decide)
